import Mathlib

/-!
Shallow embedding of `google-photo-uploader` (main.go) in Lean 4.

The program watches a directory, filters creation events by file
extension, enqueues matching paths onto a bounded channel after a settle
delay, and a pool of workers pops paths and shells out to `rclone copy`
with a retry loop.  The embedding below translates the relevant Go
functions (`isSupportedFile`, `handleFileCreated`, `uploadFile`, the
worker loop body of `uploadWorker`, and the queue constructed in
`NewPhotoUploader`) into pure Lean functions.  Side effects are made
explicit: the filesystem is a predicate `String → Bool`, the external
tool is an oracle `run : Nat → Nat` giving the exit status of the i-th
invocation, and the actions a function performs (process invocations,
sleeps, enqueues) are returned as a trace list.
-/

set_option autoImplicit false

namespace GPU

/-- RcloneConfig mirrors the Go struct `RcloneConfig` (main.go lines 30-35). -/
structure RcloneConfig where
  remoteName : String
  albumName : String
  deleteAfterUpload : Bool
  checkDuplicates : Bool
  deriving DecidableEq, Repr

/-- UploadConfig mirrors the Go struct `UploadConfig` (main.go lines 47-52).
Go `int` fields are modelled as `Int` (they may be zero or negative when so
configured). -/
structure UploadConfig where
  concurrentUploads : Int
  waitTime : Int
  retryCount : Int
  retryInterval : Int
  deriving DecidableEq, Repr

/-- Config mirrors the Go struct `Config` (main.go lines 21-27); the logging
sub-struct is irrelevant to the claims and omitted. -/
structure Config where
  watchDirectory : String
  supportedExtensions : List String
  rclone : RcloneConfig
  upload : UploadConfig
  deriving DecidableEq, Repr

/-- Model of the per-character step of Go `strings.EqualFold` restricted to
ASCII: an upper-case ASCII letter folds to its lower-case code point, any
other character folds to itself.  (Go additionally applies Unicode simple
folding to non-ASCII runes; the paths and extensions this program compares
are ASCII, and no non-ASCII rune folds to an ASCII code point, so the
restriction is faithful for every property below.) -/
def charFoldNat (c : Char) : Nat :=
  if 65 ≤ c.toNat ∧ c.toNat ≤ 90 then c.toNat + 32 else c.toNat

/-- Model of Go `strings.EqualFold s t`: case-insensitive equality, i.e.
equality of the character-wise case-folded strings. -/
def eqFold (s t : String) : Bool :=
  s.data.map charFoldNat == t.data.map charFoldNat

/-- Helper for `filepathExt`: the Go loop in `path/filepath.Ext` scans the
path backwards (here: forwards over the reversed character list), stopping
at a path separator, and returns the suffix starting at the first `.` found.
`acc` holds, in original order, the characters already scanned (those to the
right of the current position). -/
def extFromRev (acc : List Char) : List Char → List Char
  | [] => []
  | c :: rest =>
    if c = '/' then []
    else if c = '.' then c :: acc
    else extFromRev (c :: acc) rest

/-- Model of Go `path/filepath.Ext` (on a Unix separator): the suffix of the
final path element beginning at its final dot, including the dot; empty if
the final element has no dot. -/
def filepathExt (p : String) : String :=
  String.mk (extFromRev [] p.data.reverse)

/-- Model of `isSupportedFile` (main.go lines 214-222): the extension of the
path, as returned by `filepath.Ext`, is compared case-insensitively
(`strings.EqualFold`) against each configured entry; true iff some entry
matches. -/
def isSupportedFile (exts : List String) (filePath : String) : Bool :=
  exts.any (fun supportedExt => eqFold (filepathExt filePath) supportedExt)

/-- Actions the watcher performs, in order, while handling one creation
event. -/
inductive WatchAction where
  | sleep (seconds : Int)
  | enqueue (filePath : String)
  deriving DecidableEq, Repr

/-- Model of `handleFileCreated` (main.go lines 194-211) as the ordered trace
of actions for one creation event.  A non-matching path returns immediately
(no actions).  A matching path first sleeps the settle delay
(`time.Sleep(WaitTime)`), then performs a `select` that either sends the
path on `uploadChan` or, if the context is already cancelled, abandons the
enqueue; `cancelled` tells which branch the `select` takes. -/
def handleFileCreated (cfg : Config) (cancelled : Bool) (filePath : String) :
    List WatchAction :=
  if !isSupportedFile cfg.supportedExtensions filePath then []
  else
    WatchAction.sleep cfg.upload.waitTime ::
      (if cancelled then [] else [WatchAction.enqueue filePath])

/-- Number of enqueue actions in a watcher trace. -/
def countEnqueues (l : List WatchAction) : Nat :=
  l.countP (fun a => match a with | WatchAction.enqueue _ => true | _ => false)

/-- Errors `uploadFile` can return (main.go lines 264 and 290). -/
inductive UploadError where
  | fileNotExists
  | uploadFailed (attempts : Int)
  deriving DecidableEq, Repr

/-- Actions `uploadFile` performs, in order. -/
inductive UploadAction where
  | invoke (args : List String)
  | sleep (seconds : Int)
  deriving DecidableEq, Repr

/-- Argument list built by `uploadFile` (main.go lines 267-274):
`copy <filePath> <remoteName>:<albumName>`, with `--checksum` appended when
`CheckDuplicates` is set. -/
def rcloneArgs (cfg : Config) (filePath : String) : List String :=
  let remotePath := cfg.rclone.remoteName ++ ":" ++ cfg.rclone.albumName
  let args := ["copy", filePath, remotePath]
  if cfg.rclone.checkDuplicates then args ++ ["--checksum"] else args

/-- Model of the retry loop of `uploadFile` (main.go lines 277-296).
`run i` is the exit status of the i-th invocation of the external tool
(`cmd.Run()` returns an error exactly when the status is non-zero).  The Go
loop is `for i := 0; i < retryCount; i++`; `fuel` is the number of remaining
iterations, so the loop is entered with `i = 0` and `fuel = retryCount.toNat`
and the invariant `i + fuel = retryCount` holds throughout when
`retryCount ≥ 0`.  On a non-zero status the loop sleeps `retryInterval` and
continues when `i < retryCount - 1`, and otherwise returns the terminal
error; falling out of the loop returns success (main.go line 296). -/
def uploadLoop (args : List String) (retryCount retryInterval : Int)
    (run : Nat → Nat) : Nat → Nat → Except UploadError Unit × List UploadAction
  | _, 0 => (Except.ok (), [])
  | i, fuel + 1 =>
    if run i == 0 then
      (Except.ok (), [UploadAction.invoke args])
    else if (i : Int) < retryCount - 1 then
      let rest := uploadLoop args retryCount retryInterval run (i + 1) fuel
      (rest.1, UploadAction.invoke args :: UploadAction.sleep retryInterval :: rest.2)
    else
      (Except.error (UploadError.uploadFailed retryCount), [UploadAction.invoke args])

/-- Model of `uploadFile` (main.go lines 261-297).  `fileExists` is the
result of the initial `os.Stat` existence check; when the file is missing
the function fails fast with no actions.  Otherwise it builds the rclone
argument list and enters the retry loop. -/
def uploadFile (cfg : Config) (fileExists : Bool) (filePath : String)
    (run : Nat → Nat) : Except UploadError Unit × List UploadAction :=
  if !fileExists then (Except.error UploadError.fileNotExists, [])
  else
    uploadLoop (rcloneArgs cfg filePath) cfg.upload.retryCount
      cfg.upload.retryInterval run 0 cfg.upload.retryCount.toNat

/-- Number of external-tool invocations in an upload trace. -/
def countInvokes (l : List UploadAction) : Nat :=
  l.countP (fun a => match a with | UploadAction.invoke _ => true | _ => false)

/-- Number of sleeps in an upload trace. -/
def countSleeps (l : List UploadAction) : Nat :=
  l.countP (fun a => match a with | UploadAction.sleep _ => true | _ => false)

/-- Trace of an upload in which every one of `n` attempts fails: `n`
invocations with a retry-interval sleep between each consecutive pair
(`n - 1` sleeps, none after the last invocation). -/
def failureTrace (args : List String) (interval : Int) : Nat → List UploadAction
  | 0 => []
  | 1 => [UploadAction.invoke args]
  | n + 2 =>
    UploadAction.invoke args :: UploadAction.sleep interval ::
      failureTrace args interval (n + 1)

/-- Deletion of a file from the modelled filesystem (`os.Remove`,
main.go line 250). -/
def removeFile (fs : String → Bool) (filePath : String) : String → Bool :=
  fun q => if q = filePath then false else fs q

/-- Model of the body of the worker loop for one popped path
(main.go lines 239-255): call `uploadFile`; on error `continue` (the
filesystem is untouched); on success delete the local file exactly when
`DeleteAfterUpload` is set.  Returns the filesystem afterwards and the
upload result. -/
def uploadWorkerStep (cfg : Config) (fs : String → Bool) (filePath : String)
    (run : Nat → Nat) : (String → Bool) × Except UploadError Unit :=
  match uploadFile cfg (fs filePath) filePath run with
  | (Except.error e, _) => (fs, Except.error e)
  | (Except.ok _, _) =>
    if cfg.rclone.deleteAfterUpload then
      (removeFile fs filePath, Except.ok ())
    else
      (fs, Except.ok ())

/-- One iteration of `uploadWorker` (main.go lines 230-257) acting on the
queue contents: an empty (closed) queue ends the loop; otherwise the worker
pops the head, processes it with `uploadWorkerStep`, and the item leaves the
queue for good — the worker contains no send on `uploadChan`, so nothing is
ever re-enqueued. -/
def uploadWorkerIter (cfg : Config) (fs : String → Bool) (run : Nat → Nat) :
    List String → List String × (String → Bool) × Option (Except UploadError Unit)
  | [] => ([], fs, none)
  | filePath :: rest =>
    let step := uploadWorkerStep cfg fs filePath run
    (rest, step.1, some step.2)

/-- The upload queue: a bounded FIFO list of pending paths (the Go channel
`uploadChan`). -/
structure UploadQueue where
  items : List String
  capacity : Nat
  deriving DecidableEq, Repr

/-- Enqueue onto the back of the queue; `none` when the queue is full (a
send on a full channel blocks). -/
def qPush (q : UploadQueue) (filePath : String) : Option UploadQueue :=
  if q.items.length < q.capacity then
    some { q with items := q.items ++ [filePath] }
  else none

/-- Dequeue from the front of the queue; `none` when empty. -/
def qPop (q : UploadQueue) : Option (String × UploadQueue) :=
  match q.items with
  | [] => none
  | x :: xs => some (x, { q with items := xs })

/-- The queue as constructed by `NewPhotoUploader` (main.go line 85):
`make(chan string, 100)`.  The capacity is the literal `100`; no field of
the configuration is consulted. -/
def newUploadQueue (_cfg : Config) : UploadQueue :=
  { items := [], capacity := 100 }

/-- Example configuration matching the sample `config.yaml` shipped with the
repository, used to instantiate the theorems below on concrete inputs. -/
def cfgEx : Config :=
  { watchDirectory := "/data/photos"
    supportedExtensions := [".heif", ".heic", ".HEIF", ".HEIC"]
    rclone :=
      { remoteName := "google-photos"
        albumName := "Uploaded Photos"
        deleteAfterUpload := false
        checkDuplicates := true }
    upload :=
      { concurrentUploads := 2
        waitTime := 30
        retryCount := 3
        retryInterval := 5 } }

/-- The example configuration with `delete_after_upload` enabled. -/
def cfgDel : Config :=
  { cfgEx with rclone := { cfgEx.rclone with deleteAfterUpload := true } }

/-- The example configuration with `retry_count` set to zero. -/
def cfgZeroRetry : Config :=
  { cfgEx with upload := { cfgEx.upload with retryCount := 0 } }

/-- The example configuration with `retry_count` zero and
`delete_after_upload` enabled. -/
def cfgZeroRetryDel : Config :=
  { cfgZeroRetry with
    rclone := { cfgZeroRetry.rclone with deleteAfterUpload := true } }

/-- The example configuration with every `upload` field changed. -/
def cfgBigQueue : Config :=
  { cfgEx with
    upload :=
      { concurrentUploads := 7
        waitTime := 1
        retryCount := 9
        retryInterval := 2 } }

/-- An external-tool oracle that exits with status 1 on every invocation. -/
def alwaysFail : Nat → Nat := fun _ => 1

/-- An external-tool oracle that exits with status 0 on every invocation. -/
def alwaysOk : Nat → Nat := fun _ => 0

/-- A filesystem on which every path exists. -/
def fsAll : String → Bool := fun _ => true

/-- The blocking points of the pipeline. -/
inductive BlockingPoint where
  | queuePush
  | queuePop
  | settleSleep
  | retrySleep
  | processCall
  | fileDeletion
  deriving DecidableEq, Repr

/-- Static classification of each blocking point in the source: `true` iff
the blocking construct is a `select` that includes `ctx.Done()` and hence
returns promptly on cancellation.
The queue push is `select \x7b case p.uploadChan <- filePath / case <-p.ctx.Done() \x7d`
(main.go lines 205-210) — aware.
The queue pop is `select \x7b case <-p.ctx.Done() / case filePath := <-p.uploadChan \x7d`
(main.go lines 231-236) — aware.
The settle delay is a plain `time.Sleep` (main.go line 202) — not aware.
The retry interval is a plain `time.Sleep` (main.go line 286) — not aware.
The external process is run with `exec.Command(...).Run()`, not
`exec.CommandContext` (main.go lines 278-282) — not aware.
File deletion is a plain `os.Remove` (main.go line 250) — not aware. -/
def cancellationAware : BlockingPoint → Bool
  | BlockingPoint.queuePush => true
  | BlockingPoint.queuePop => true
  | BlockingPoint.settleSleep => false
  | BlockingPoint.retrySleep => false
  | BlockingPoint.processCall => false
  | BlockingPoint.fileDeletion => false

/-! ## Helper lemmas -/

theorem charToNat_injective {a b : Char} (h : a.toNat = b.toNat) : a = b := by
  have h2 := congrArg Char.ofNat h
  rwa [Char.ofNat_toNat, Char.ofNat_toNat] at h2

theorem charFoldNat_eq_dot {c : Char} (h : charFoldNat c = 46) : c = '.' := by
  unfold charFoldNat at h
  split at h
  · omega
  · exact charToNat_injective h

theorem eqFold_iff {s t : String} :
    eqFold s t = true ↔ s.data.map charFoldNat = t.data.map charFoldNat := by
  simp [eqFold]

theorem string_eq_empty_of_data {s : String} (h : s.data = []) : s = "" := by
  cases s with
  | mk l =>
    simp only [String.data] at h
    subst h
    rfl

theorem eqFold_empty_left {t : String} : eqFold "" t = true ↔ t = "" := by
  rw [eqFold_iff]
  constructor
  · intro h
    have hmap : List.map charFoldNat t.data = [] := by simpa using h.symm
    exact string_eq_empty_of_data (List.map_eq_nil_iff.mp hmap)
  · intro h
    subst h
    rfl

theorem extFromRev_empty_or_dot (l : List Char) :
    ∀ acc, extFromRev acc l = [] ∨ ∃ t, extFromRev acc l = '.' :: t := by
  induction l with
  | nil => intro acc; left; rfl
  | cons c rest ih =>
    intro acc
    by_cases hsep : c = '/'
    · left; simp [extFromRev, hsep]
    · by_cases hdot : c = '.'
      · right
        refine ⟨acc, ?_⟩
        simp [extFromRev, hsep, hdot]
      · simpa [extFromRev, hsep, hdot] using ih (c :: acc)

theorem filepathExt_empty_or_dot (p : String) :
    filepathExt p = "" ∨ ∃ t, (filepathExt p).data = '.' :: t := by
  rcases extFromRev_empty_or_dot p.data.reverse [] with h | ⟨t, h⟩
  · left
    unfold filepathExt
    rw [h]
  · right
    exact ⟨t, by unfold filepathExt; rw [h]⟩

theorem uploadLoop_actions (args : List String) (K interval : Int) (run : Nat → Nat) :
    ∀ fuel i a, a ∈ (uploadLoop args K interval run i fuel).2 →
      a = UploadAction.invoke args ∨ a = UploadAction.sleep interval := by
  intro fuel
  induction fuel with
  | zero => intro i a ha; simp [uploadLoop] at ha
  | succ f ih =>
    intro i a ha
    by_cases h : run i = 0
    · simp [uploadLoop, h] at ha
      left; exact ha
    · have hne : (run i == 0) = false := by simp [h]
      by_cases hc : (i : Int) < K - 1
      · simp only [uploadLoop, hne, Bool.false_eq_true, if_false, hc, if_true] at ha
        rcases List.mem_cons.mp ha with h1 | h2
        · left; exact h1
        · rcases List.mem_cons.mp h2 with h3 | h4
          · right; exact h3
          · exact ih (i + 1) a h4
      · simp [uploadLoop, hne, hc] at ha
        left; exact ha

theorem uploadLoop_ok_iff (args : List String) (K interval : Int) (run : Nat → Nat) :
    ∀ (fuel i : Nat), (i : Int) + (fuel : Int) = K →
      ((uploadLoop args K interval run i fuel).1 = Except.ok () ↔
        (fuel = 0 ∨ ∃ j, j < fuel ∧ run (i + j) = 0)) := by
  intro fuel
  induction fuel with
  | zero => intro i hinv; simp [uploadLoop]
  | succ f ih =>
    intro i hinv
    by_cases h : run i = 0
    · constructor
      · intro _
        right
        exact ⟨0, Nat.succ_pos f, by simpa using h⟩
      · intro _
        simp [uploadLoop, h]
    · have hne : (run i == 0) = false := by simp [h]
      by_cases hc : (i : Int) < K - 1
      · have hf : f ≠ 0 := by omega
        have hinv2 : ((i + 1 : Nat) : Int) + f = K := by push_cast at hinv ⊢; omega
        have hih := ih (i + 1) hinv2
        simp only [uploadLoop, hne, Bool.false_eq_true, if_false, hc, if_true]
        rw [hih]
        constructor
        · rintro (hf0 | ⟨j, hj, hr⟩)
          · exact absurd hf0 hf
          · right
            refine ⟨j + 1, by omega, ?_⟩
            have harith : i + 1 + j = i + (j + 1) := by omega
            rwa [harith] at hr
        · rintro (h0 | ⟨j, hj, hr⟩)
          · exact absurd h0 (Nat.succ_ne_zero f)
          · cases j with
            | zero => simp at hr; exact absurd hr h
            | succ j2 =>
              right
              refine ⟨j2, by omega, ?_⟩
              have harith : i + 1 + j2 = i + (j2 + 1) := by omega
              rwa [harith]
      · have hf0 : f = 0 := by omega
        subst hf0
        simp only [uploadLoop, hne, Bool.false_eq_true, if_false, hc]
        constructor
        · intro hcon; exact absurd hcon (by simp)
        · rintro (h0 | ⟨j, hj, hr⟩)
          · exact absurd h0 (Nat.succ_ne_zero 0)
          · interval_cases j
            · simp at hr; exact absurd hr h

theorem uploadLoop_succ (args : List String) (K interval : Int) (run : Nat → Nat)
    (i fuel : Nat) :
    uploadLoop args K interval run i (fuel + 1) =
      if run i == 0 then (Except.ok (), [UploadAction.invoke args])
      else if (i : Int) < K - 1 then
        ((uploadLoop args K interval run (i + 1) fuel).1,
          UploadAction.invoke args :: UploadAction.sleep interval ::
            (uploadLoop args K interval run (i + 1) fuel).2)
      else (Except.error (UploadError.uploadFailed K), [UploadAction.invoke args]) :=
  rfl

theorem uploadLoop_fail (args : List String) (K interval : Int) (run : Nat → Nat)
    (hfail : ∀ j, run j ≠ 0) :
    ∀ (fuel i : Nat), 1 ≤ fuel → (i : Int) + (fuel : Int) = K →
      uploadLoop args K interval run i fuel =
        (Except.error (UploadError.uploadFailed K), failureTrace args interval fuel) := by
  intro fuel
  induction fuel with
  | zero => intro i h; omega
  | succ f ih =>
    intro i _ hinv
    have hne : (run i == 0) = false := by simp [hfail i]
    cases f with
    | zero =>
      have hc : ¬ (i : Int) < K - 1 := by push_cast at hinv; omega
      rw [uploadLoop_succ]
      simp [hne, hc, failureTrace]
    | succ f2 =>
      have hc : (i : Int) < K - 1 := by push_cast at hinv; omega
      have hrec := ih (i + 1) (Nat.succ_le_succ (Nat.zero_le f2))
        (by push_cast at hinv ⊢; omega)
      rw [uploadLoop_succ, hrec]
      simp [hne, hc, failureTrace]

theorem countInvokes_failureTrace (args : List String) (interval : Int) :
    ∀ n, countInvokes (failureTrace args interval n) = n := by
  intro n
  induction n using Nat.strong_induction_on with
  | _ n ih =>
    match n with
    | 0 => simp [failureTrace, countInvokes]
    | 1 => simp [failureTrace, countInvokes]
    | m + 2 =>
      have hm := ih (m + 1) (by omega)
      simp only [failureTrace, countInvokes, List.countP_cons] at hm ⊢
      simp at hm ⊢
      omega

theorem countSleeps_failureTrace (args : List String) (interval : Int) :
    ∀ n, countSleeps (failureTrace args interval n) = n - 1 := by
  intro n
  induction n using Nat.strong_induction_on with
  | _ n ih =>
    match n with
    | 0 => simp [failureTrace, countSleeps]
    | 1 => simp [failureTrace, countSleeps]
    | m + 2 =>
      have hm := ih (m + 1) (by omega)
      simp only [failureTrace, countSleeps, List.countP_cons] at hm ⊢
      simp at hm ⊢
      omega

/-! ## Claim theorems -/

/-- C1: for every creation event, a path whose extension does not match the
allow-list (case-insensitively) produces no actions at all; a matching path,
when no cancellation intervenes, produces exactly the settle-delay sleep
followed by exactly one enqueue of that path; and no event ever produces
more than one enqueue. -/
theorem watcher_enqueue_once (cfg : Config) (cancelled : Bool) (filePath : String) :
    (isSupportedFile cfg.supportedExtensions filePath = false →
        handleFileCreated cfg cancelled filePath = []) ∧
    (isSupportedFile cfg.supportedExtensions filePath = true → cancelled = false →
        handleFileCreated cfg cancelled filePath =
          [WatchAction.sleep cfg.upload.waitTime, WatchAction.enqueue filePath]) ∧
    countEnqueues (handleFileCreated cfg cancelled filePath) ≤ 1 := by
  refine ⟨fun h => by simp [handleFileCreated, h],
    fun h hc => by simp [handleFileCreated, h, hc], ?_⟩
  by_cases h : isSupportedFile cfg.supportedExtensions filePath
  · cases cancelled <;> simp [handleFileCreated, h, countEnqueues]
  · simp [handleFileCreated, h, countEnqueues]

/-- Witness for C1 at the sample configuration: a `.heic` file is enqueued
exactly once after the settle delay, a `.txt` file produces nothing. -/
theorem watcher_enqueue_once_witness :
    handleFileCreated cfgEx false "/data/photos/a.heic" =
      [WatchAction.sleep 30, WatchAction.enqueue "/data/photos/a.heic"] ∧
    handleFileCreated cfgEx false "/data/photos/notes.txt" = [] := by
  have h1 := (watcher_enqueue_once cfgEx false "/data/photos/a.heic").2.1
    (by decide) rfl
  have h2 := (watcher_enqueue_once cfgEx false "/data/photos/notes.txt").1
    (by decide)
  exact ⟨h1, h2⟩

/-- C2 (amended to `K ≥ 1`): with a retry count of `K ≥ 1`, an existing file
and an external tool that fails on every invocation, `uploadFile` produces
exactly the trace of `K` invocations with a retry-interval sleep between
consecutive attempts (`K - 1` sleeps, none after the last attempt), returns
the terminal error, and the worker drops the item: the queue shrinks by
exactly the popped item, nothing is re-enqueued, and the filesystem is left
unchanged. -/
theorem retry_exhaustion_drops (cfg : Config) (filePath : String) (run : Nat → Nat)
    (fs : String → Bool) (rest : List String)
    (hK : 1 ≤ cfg.upload.retryCount) (hfail : ∀ i, run i ≠ 0)
    (hex : fs filePath = true) :
    uploadFile cfg (fs filePath) filePath run =
      (Except.error (UploadError.uploadFailed cfg.upload.retryCount),
        failureTrace (rcloneArgs cfg filePath) cfg.upload.retryInterval
          cfg.upload.retryCount.toNat) ∧
    countInvokes (uploadFile cfg (fs filePath) filePath run).2 =
      cfg.upload.retryCount.toNat ∧
    countSleeps (uploadFile cfg (fs filePath) filePath run).2 =
      cfg.upload.retryCount.toNat - 1 ∧
    uploadWorkerIter cfg fs run (filePath :: rest) =
      (rest, fs, some (Except.error (UploadError.uploadFailed cfg.upload.retryCount))) := by
  have hfuel : 1 ≤ cfg.upload.retryCount.toNat := by omega
  have hinv : ((0 : Nat) : Int) + (cfg.upload.retryCount.toNat : Int) =
      cfg.upload.retryCount := by
    push_cast
    omega
  have h1 : uploadFile cfg (fs filePath) filePath run =
      (Except.error (UploadError.uploadFailed cfg.upload.retryCount),
        failureTrace (rcloneArgs cfg filePath) cfg.upload.retryInterval
          cfg.upload.retryCount.toNat) := by
    rw [hex]
    simp only [uploadFile, Bool.not_true, Bool.false_eq_true, if_false]
    exact uploadLoop_fail (rcloneArgs cfg filePath) cfg.upload.retryCount
      cfg.upload.retryInterval run hfail cfg.upload.retryCount.toNat 0 hfuel hinv
  refine ⟨h1, ?_, ?_, ?_⟩
  · rw [h1]
    exact countInvokes_failureTrace _ _ _
  · rw [h1]
    exact countSleeps_failureTrace _ _ _
  · simp [uploadWorkerIter, uploadWorkerStep, h1]

/-- Witness for C2's amended theorem at the sample configuration
(`retry_count = 3`, `retry_interval = 5`): three failing attempts, terminal
error, item dropped. -/
theorem retry_exhaustion_drops_witness :
    uploadFile cfgEx (fsAll "/data/photos/a.heic") "/data/photos/a.heic" alwaysFail =
      (Except.error (UploadError.uploadFailed 3),
        failureTrace (rcloneArgs cfgEx "/data/photos/a.heic") 5 3) ∧
    uploadWorkerIter cfgEx fsAll alwaysFail ["/data/photos/a.heic"] =
      ([], fsAll, some (Except.error (UploadError.uploadFailed 3))) := by
  have h := retry_exhaustion_drops cfgEx "/data/photos/a.heic" alwaysFail fsAll []
    (by decide) (fun i => by simp [alwaysFail]) rfl
  exact ⟨h.1, h.2.2.2⟩

/-- Counterexample to C2 as stated: with a configured retry count of `K = 0`
and an external tool that fails on every invocation, the upload does NOT
return an error — it returns success after zero invocations — so the claim
fails at `K = 0`. -/
theorem retry_zero_counterexample :
    (uploadFile cfgZeroRetry true "/data/photos/a.heic" alwaysFail).1 =
      Except.ok () ∧
    countInvokes (uploadFile cfgZeroRetry true "/data/photos/a.heic" alwaysFail).2 = 0 := by
  exact ⟨rfl, rfl⟩

/-- C3: the external tool is invoked with exactly
`copy <local-path> <remote-name>:<album-name>`, with `--checksum` appended
iff the duplicate-check flag is set — every invocation in the trace carries
exactly this argument list — and the upload is judged successful exactly
when some attempted invocation exits with status zero (every attempt fails
otherwise; with a non-positive retry count there are no attempts and the
loop trivially succeeds). -/
theorem rclone_invocation_correct (cfg : Config) (filePath : String) (run : Nat → Nat) :
    rcloneArgs cfg filePath =
      ["copy", filePath, cfg.rclone.remoteName ++ ":" ++ cfg.rclone.albumName] ++
        (if cfg.rclone.checkDuplicates then ["--checksum"] else []) ∧
    (∀ args, UploadAction.invoke args ∈ (uploadFile cfg true filePath run).2 →
        args = rcloneArgs cfg filePath) ∧
    ((uploadFile cfg true filePath run).1 = Except.ok () ↔
      (cfg.upload.retryCount.toNat = 0 ∨
        ∃ i, i < cfg.upload.retryCount.toNat ∧ run i = 0)) := by
  refine ⟨?_, ?_, ?_⟩
  · unfold rcloneArgs
    by_cases h : cfg.rclone.checkDuplicates <;> simp [h]
  · intro args hmem
    simp only [uploadFile, Bool.not_true, Bool.false_eq_true, if_false] at hmem
    rcases uploadLoop_actions (rcloneArgs cfg filePath) cfg.upload.retryCount
        cfg.upload.retryInterval run cfg.upload.retryCount.toNat 0 _ hmem with h1 | h2
    · injection h1
    · exact absurd h2 (by simp)
  · simp only [uploadFile, Bool.not_true, Bool.false_eq_true, if_false]
    by_cases hK : 0 ≤ cfg.upload.retryCount
    · have hinv : ((0 : Nat) : Int) + (cfg.upload.retryCount.toNat : Int) =
          cfg.upload.retryCount := by push_cast; omega
      have := uploadLoop_ok_iff (rcloneArgs cfg filePath) cfg.upload.retryCount
        cfg.upload.retryInterval run cfg.upload.retryCount.toNat 0 hinv
      simpa using this
    · have ht : cfg.upload.retryCount.toNat = 0 := Int.toNat_of_nonpos (by omega)
      rw [ht]
      simp [uploadLoop]

/-- Witness for C3 at the sample configuration (duplicate-check enabled): the
argument list is `copy /data/photos/a.heic google-photos:Uploaded Photos
--checksum`, and an exit status of zero is judged a success. -/
theorem rclone_invocation_correct_witness :
    (["copy", "/data/photos/a.heic", "google-photos:Uploaded Photos", "--checksum"] :
        List String) = rcloneArgs cfgEx "/data/photos/a.heic" ∧
    (uploadFile cfgEx true "/data/photos/a.heic" alwaysOk).1 = Except.ok () := by
  constructor
  · exact (rclone_invocation_correct cfgEx "/data/photos/a.heic" alwaysOk).2.1
      ["copy", "/data/photos/a.heic", "google-photos:Uploaded Photos", "--checksum"]
      (by decide)
  · exact (rclone_invocation_correct cfgEx "/data/photos/a.heic" alwaysOk).2.2.mpr
      (Or.inr ⟨0, by decide, rfl⟩)

/-- C4: after a successful upload, with `delete_after_upload = true` the
worker removes exactly the local file (it no longer exists; every other path
is untouched); with `delete_after_upload = false` the filesystem is left
completely unchanged. -/
theorem success_deletion (cfg : Config) (fs : String → Bool) (filePath : String)
    (run : Nat → Nat)
    (hok : (uploadFile cfg (fs filePath) filePath run).1 = Except.ok ()) :
    (cfg.rclone.deleteAfterUpload = true →
        (uploadWorkerStep cfg fs filePath run).1 filePath = false ∧
        ∀ q, q ≠ filePath → (uploadWorkerStep cfg fs filePath run).1 q = fs q) ∧
    (cfg.rclone.deleteAfterUpload = false →
        (uploadWorkerStep cfg fs filePath run).1 = fs) := by
  rcases hres : uploadFile cfg (fs filePath) filePath run with ⟨r, acts⟩
  rw [hres] at hok
  simp only at hok
  subst hok
  constructor
  · intro hd
    simp [uploadWorkerStep, hres, hd, removeFile]
    intro q hq
    simp [hq]
  · intro hd
    simp [uploadWorkerStep, hres, hd]

/-- Witness for C4: with deletion enabled the uploaded file is gone; with it
disabled the filesystem is exactly as before. -/
theorem success_deletion_witness :
    (uploadWorkerStep cfgDel fsAll "/data/photos/a.heic" alwaysOk).1
      "/data/photos/a.heic" = false ∧
    (uploadWorkerStep cfgEx fsAll "/data/photos/a.heic" alwaysOk).1 = fsAll := by
  have h1 := success_deletion cfgDel fsAll "/data/photos/a.heic" alwaysOk rfl
  have h2 := success_deletion cfgEx fsAll "/data/photos/a.heic" alwaysOk rfl
  exact ⟨(h1.1 rfl).1, h2.2 rfl⟩

/-- C5: when the popped file no longer exists, `uploadFile` fails
immediately with the file-not-exists error and performs no action at all:
no invocation of the external tool and no retry sleep. -/
theorem missing_file_fails_fast (cfg : Config) (filePath : String) (run : Nat → Nat) :
    uploadFile cfg false filePath run =
      (Except.error UploadError.fileNotExists, []) ∧
    countInvokes (uploadFile cfg false filePath run).2 = 0 ∧
    countSleeps (uploadFile cfg false filePath run).2 = 0 :=
  ⟨rfl, rfl, rfl⟩

/-- C6 (amended): queue push and queue pop are the only cancellation-aware
blocking points — both sleeps, the external-process call and file deletion
run to completion once started — and a cancelled context makes the watcher
abandon the enqueue. -/
theorem blocking_points_cancellation :
    (∀ b : BlockingPoint, cancellationAware b = true ↔
        (b = BlockingPoint.queuePush ∨ b = BlockingPoint.queuePop)) ∧
    (∀ cfg : Config, ∀ filePath : String,
        countEnqueues (handleFileCreated cfg true filePath) = 0) := by
  constructor
  · intro b
    cases b <;> simp [cancellationAware]
  · intro cfg filePath
    by_cases h : isSupportedFile cfg.supportedExtensions filePath <;>
      simp [handleFileCreated, h, countEnqueues]

/-- Witness for C6's amended theorem: the queue push is cancellation-aware,
and a matching file detected under a cancelled context is never enqueued. -/
theorem blocking_points_cancellation_witness :
    cancellationAware BlockingPoint.queuePush = true ∧
    countEnqueues (handleFileCreated cfgEx true "/data/photos/a.heic") = 0 := by
  have h := blocking_points_cancellation
  exact ⟨(h.1 BlockingPoint.queuePush).mpr (Or.inl rfl),
    h.2 cfgEx "/data/photos/a.heic"⟩

/-- Counterexample to C6 as stated: the settle-delay sleep and the
retry-interval sleep are plain `time.Sleep` calls, not `select`s over
`ctx.Done()`; they are not cancellation-aware. -/
theorem sleeps_not_cancellation_aware :
    cancellationAware BlockingPoint.settleSleep = false ∧
    cancellationAware BlockingPoint.retrySleep = false :=
  ⟨rfl, rfl⟩

/-- C7 (amended): the upload queue is a bounded FIFO — push appends at the
back and only succeeds below capacity, pop removes from the front — but its
capacity is the hard-coded literal 100 for every configuration, not a
configurable value. -/
theorem queue_bounded_fifo (cfg : Config) :
    (newUploadQueue cfg).capacity = 100 ∧
    (newUploadQueue cfg).items = [] ∧
    (∀ q : UploadQueue, ∀ filePath : String, ∀ q2 : UploadQueue,
        qPush q filePath = some q2 →
          q2.items = q.items ++ [filePath] ∧ q2.capacity = q.capacity ∧
            q.items.length < q.capacity) ∧
    (∀ q : UploadQueue, ∀ filePath : String,
        q.capacity ≤ q.items.length → qPush q filePath = none) ∧
    (∀ q : UploadQueue, ∀ x : String, ∀ q2 : UploadQueue,
        qPop q = some (x, q2) →
          q.items = x :: q2.items ∧ q2.capacity = q.capacity) := by
  refine ⟨rfl, rfl, ?_, ?_, ?_⟩
  · intro q filePath q2 h
    unfold qPush at h
    split at h
    · next hlt =>
      rcases Option.some.inj h with rfl
      exact ⟨rfl, rfl, hlt⟩
    · exact absurd h (by simp)
  · intro q filePath hge
    unfold qPush
    rw [if_neg (by omega)]
  · intro q x q2 h
    unfold qPop at h
    rcases hq : q.items with _ | ⟨y, ys⟩
    · rw [hq] at h
      exact absurd h (by simp)
    · rw [hq] at h
      simp only [Option.some.injEq, Prod.mk.injEq] at h
      rcases h with ⟨rfl, rfl⟩
      exact ⟨rfl, rfl⟩

/-- Witness for C7's amended theorem: the freshly constructed queue has
capacity 100, push appends at the back, pop removes at the front. -/
theorem queue_bounded_fifo_witness :
    (newUploadQueue cfgEx).capacity = 100 ∧
    (UploadQueue.mk ["a", "b"] 100).items =
      (UploadQueue.mk ["a"] 100).items ++ ["b"] ∧
    (UploadQueue.mk ["a", "b"] 100).items =
      "a" :: (UploadQueue.mk ["b"] 100).items := by
  have h := queue_bounded_fifo cfgEx
  refine ⟨h.1, ?_, ?_⟩
  · exact (h.2.2.1 (UploadQueue.mk ["a"] 100) "b" (UploadQueue.mk ["a", "b"] 100)
      rfl).1
  · exact (h.2.2.2.2 (UploadQueue.mk ["a", "b"] 100) "a" (UploadQueue.mk ["b"] 100)
      rfl).1

/-- Counterexample to C7 as stated: the queue capacity is not configurable —
two configurations differing in every upload setting still both yield the
hard-coded capacity 100 (`make(chan string, 100)`). -/
theorem queue_capacity_not_configurable :
    cfgBigQueue ≠ cfgEx ∧
    (newUploadQueue cfgBigQueue).capacity = 100 ∧
    (newUploadQueue cfgEx).capacity = 100 := by
  exact ⟨by decide, rfl, rfl⟩

/-- C8: with a zero-or-negative configured retry count and an existing file,
`uploadFile` returns success without ever invoking the external tool, and
consequently with `delete_after_upload = true` the worker deletes the local
file although it was never uploaded. -/
theorem zero_retry_uploads_nothing (cfg : Config) (fs : String → Bool)
    (filePath : String) (run : Nat → Nat)
    (hK : cfg.upload.retryCount ≤ 0) (hex : fs filePath = true) :
    uploadFile cfg (fs filePath) filePath run = (Except.ok (), []) ∧
    countInvokes (uploadFile cfg (fs filePath) filePath run).2 = 0 ∧
    (cfg.rclone.deleteAfterUpload = true →
        (uploadWorkerStep cfg fs filePath run).1 filePath = false) := by
  have ht : cfg.upload.retryCount.toNat = 0 := Int.toNat_of_nonpos hK
  have h1 : uploadFile cfg (fs filePath) filePath run = (Except.ok (), []) := by
    rw [hex]
    simp only [uploadFile, Bool.not_true, Bool.false_eq_true, if_false, ht]
    rfl
  refine ⟨h1, by rw [h1]; rfl, ?_⟩
  intro hd
  simp [uploadWorkerStep, h1, hd, removeFile]

/-- Witness for C8: with `retry_count = 0`, the always-failing tool is never
invoked, the upload reports success, and with deletion enabled the
never-uploaded file is removed. -/
theorem zero_retry_uploads_nothing_witness :
    uploadFile cfgZeroRetry (fsAll "/data/photos/a.heic") "/data/photos/a.heic"
      alwaysFail = (Except.ok (), []) ∧
    (uploadWorkerStep cfgZeroRetryDel fsAll "/data/photos/a.heic" alwaysFail).1
      "/data/photos/a.heic" = false := by
  have h1 := zero_retry_uploads_nothing cfgZeroRetry fsAll "/data/photos/a.heic"
    alwaysFail (by decide) rfl
  have h2 := zero_retry_uploads_nothing cfgZeroRetryDel fsAll "/data/photos/a.heic"
    alwaysFail (by decide) rfl
  exact ⟨h1.1, h2.2.2 rfl⟩

/-- C9: whenever `uploadFile` returns an error, the worker leaves the
filesystem untouched — even when `delete_after_upload` is true — and
reports that error. -/
theorem failed_upload_no_delete (cfg : Config) (fs : String → Bool)
    (filePath : String) (run : Nat → Nat) (e : UploadError)
    (herr : (uploadFile cfg (fs filePath) filePath run).1 = Except.error e) :
    (uploadWorkerStep cfg fs filePath run).1 = fs ∧
    (uploadWorkerStep cfg fs filePath run).2 = Except.error e := by
  rcases hres : uploadFile cfg (fs filePath) filePath run with ⟨r, acts⟩
  rw [hres] at herr
  simp only at herr
  subst herr
  exact ⟨by simp [uploadWorkerStep, hres], by simp [uploadWorkerStep, hres]⟩

/-- Witness for C9: with deletion enabled and an always-failing tool, the
terminal upload error leaves the filesystem exactly as it was. -/
theorem failed_upload_no_delete_witness :
    (uploadWorkerStep cfgDel fsAll "/data/photos/a.heic" alwaysFail).1 = fsAll := by
  exact (failed_upload_no_delete cfgDel fsAll "/data/photos/a.heic" alwaysFail
    (UploadError.uploadFailed 3) rfl).1

/-- C10: extension matching compares the path's final extension, leading dot
included, case-insensitively against each configured entry: an entry that
does not start with a dot matches no path that has an extension, and a path
with no extension is accepted iff the empty string is among the configured
entries. -/
theorem extension_matching_exact (exts : List String) (filePath : String) :
    (∀ e, e ∈ exts → e.data.head? ≠ some '.' → filepathExt filePath ≠ "" →
        eqFold (filepathExt filePath) e = false) ∧
    (filepathExt filePath = "" →
        (isSupportedFile exts filePath = true ↔ "" ∈ exts)) := by
  constructor
  · intro e hmem hhead hne
    by_contra hcon
    have htrue : eqFold (filepathExt filePath) e = true := by
      revert hcon
      cases heq : eqFold (filepathExt filePath) e <;> simp
    have hmap := eqFold_iff.mp htrue
    rcases filepathExt_empty_or_dot filePath with h0 | ⟨t, ht⟩
    · exact hne h0
    · rw [ht] at hmap
      rcases hdata : e.data with _ | ⟨c, cs⟩
      · rw [hdata] at hmap
        simp at hmap
      · rw [hdata] at hmap
        have hheads : charFoldNat '.' = charFoldNat c := by
          have := congrArg List.head? hmap
          simpa using this
        have hc : c = '.' := charFoldNat_eq_dot (by rw [← hheads]; rfl)
        apply hhead
        rw [hdata, hc]
        rfl
  · intro h0
    simp only [isSupportedFile, List.any_eq_true]
    constructor
    · rintro ⟨e, hmem, hf⟩
      rw [h0] at hf
      rwa [eqFold_empty_left.mp hf] at hmem
    · intro hmem
      exact ⟨"", hmem, by rw [h0]; rfl⟩

/-- Witness for C10: the dotless entry "heic" does not match `a.heic`, and a
path without extension is accepted exactly when the empty string is
configured. -/
theorem extension_matching_exact_witness :
    eqFold (filepathExt "/data/photos/a.heic") "heic" = false ∧
    (isSupportedFile ["heic", ""] "/data/photos/noext" = true ↔
      "" ∈ ["heic", ""]) := by
  have h1 := (extension_matching_exact ["heic"] "/data/photos/a.heic").1 "heic"
    (by decide) (by decide) (by decide)
  have h2 := (extension_matching_exact ["heic", ""] "/data/photos/noext").2
    (by decide)
  exact ⟨h1, h2⟩

end GPU
